import Mathlib

/-!
Shallow embedding of `pt_miniscreen/core/components/stack.py` (class `Stack`).

Screens (child components) are modelled by natural-number identifiers; the
shared mutable state dictionary of the class becomes the record `StackState`.
The field `torn_down` records every `remove_child` call, in call order, so
teardown order is observable.  The background transition threads
(`_push_transition` / `_pop_transition`) become explicit functions over the
finite step list produced by the step sequencer and an explicit cancellation
schedule (`_cleanup_transition` is a sticky `threading.Event`, so observation
is modelled by the index of the first loop check at which the flag is seen
set).  Images (PIL) are modelled as a size plus a total pixel function, with
`crop` and `paste` mirroring the raster semantics the renderer relies on.
-/

/-- Transition kinds: the Python strings `"PUSH"` and `"POP"`. -/
inductive TransitionKind
  | PUSH
  | POP
  deriving DecidableEq, Repr

/-- The shared state dictionary of a `Stack` component (`default_state` plus
the stack list), with `torn_down` recording each `remove_child` call in
order. -/
structure StackState where
  x_position : Int
  stack : List Nat
  active_transition : Option TransitionKind
  elements_to_pop : Nat
  torn_down : List Nat
  deriving DecidableEq, Repr

/-- Python `l[-m]` for `m ≥ 1`: the element `m` positions from the end;
an `IndexError` (i.e. `m > len(l)`) becomes `none`. -/
def pyGetNeg (l : List Nat) (m : Nat) : Option Nat :=
  l.reverse[m - 1]?

/-- Python `l.index(x)`: index of the first occurrence, `ValueError` becomes
`none`. -/
def pyIndex : List Nat → Nat → Option Nat
  | [], _ => none
  | x :: xs, c => if x = c then some 0 else (pyIndex xs c).map (· + 1)

/-- `Stack.active_component` (stack.py lines 33-45): during a pop the top
`elements_to_pop` components are departing, so the active one is
`stack[-1 - elements_to_pop]`; otherwise it is `stack[-1]`; an `IndexError`
returns `None`. -/
def Stack.active_component (st : StackState) : Option Nat :=
  if st.active_transition = some TransitionKind.POP then
    pyGetNeg st.stack (1 + st.elements_to_pop)
  else
    pyGetNeg st.stack 1

/-- `Stack.active_index` (stack.py lines 47-54): `stack.index(active_component)`,
with `ValueError` (in particular `active_component` being `None`, which is
never an element of the component list) returning `None`. -/
def Stack.active_index (st : StackState) : Option Nat :=
  match Stack.active_component st with
  | none => none
  | some c => pyIndex st.stack c

/-- `Stack.is_popping` (stack.py lines 95-97). -/
def Stack.is_popping (st : StackState) : Bool :=
  st.active_transition = some TransitionKind.POP

/-- The eviction loop `for _ in range(elements): self.remove_child(stack.pop())`
(stack.py lines 89-90 and 141-142): repeatedly removes the last list element
and logs the `remove_child` call.  Python's `list.pop` on an empty list would
raise `IndexError`; that branch (never reached under the `pop` guards) leaves
the pair unchanged. -/
def evictLoop : Nat → List Nat × List Nat → List Nat × List Nat
  | 0, p => p
  | n + 1, (s, torn) =>
    match s.getLast? with
    | none => (s, torn)
    | some x => evictLoop n (s.dropLast, torn ++ [x])

/-- `Stack.push` (stack.py lines 99-121).  `w` is `self.width`, `c` the child
created by `create_child(Component)`.  Returns the new state and whether a
transition driver thread was spawned. -/
def Stack.push (w c : Nat) (animate : Bool) (st : StackState) : StackState × Bool :=
  if st.active_transition ≠ none then
    (st, false)
  else
    let stack := st.stack ++ [c]
    if animate = false then
      ({ st with stack := stack }, false)
    else
      ({ st with active_transition := some TransitionKind.PUSH,
                 x_position := (w : Int),
                 stack := stack }, true)

/-- `Stack.pop` (stack.py lines 123-157).  Returns the new state and whether a
transition driver thread was spawned. -/
def Stack.pop (animate : Bool) (elements : Nat) (st : StackState) : StackState × Bool :=
  if st.active_transition ≠ none then
    (st, false)
  else if st.stack.length = 0 then
    (st, false)
  else if st.stack.length < elements then
    (st, false)
  else if animate = false then
    let res := evictLoop elements (st.stack, st.torn_down)
    ({ st with stack := res.1, torn_down := res.2 }, false)
  else
    ({ st with active_transition := some TransitionKind.POP,
               elements_to_pop := elements,
               x_position := 0 }, true)

/-- Whether the sticky cancellation flag (`self._cleanup_transition`, a
`threading.Event` set once by `cleanup()`) is observed set at the `i`-th
`is_set()` check of a driver loop: `cancel = some j` means the flag becomes
visible from check `j` on, `none` means it is never set during the run. -/
def cancelObserved (cancel : Option Nat) (i : Nat) : Bool :=
  match cancel with
  | none => false
  | some j => decide (j ≤ i)

/-- Modelled from the spec: the step sequencer `transition(distance, duration)`
from `pt_miniscreen/core/utils.py`, which is not under `src/`.  Spec §4.1: a
finite sequence of increments, each `> 0`, summing to the total distance
(empty when the distance is 0); pacing/timing is irrelevant to state. -/
def StepSeq (totalDistance : Nat) (steps : List Int) : Prop :=
  (∀ s ∈ steps, 0 < s) ∧ steps.sum = totalDistance

/-- The loop of `Stack._push_transition` (stack.py lines 63-69): before each
step the cancellation flag is checked (returning from the whole function if
set, which skips the terminal commit); otherwise
`x_position := min(width, x_position - step)`.  When the steps are exhausted
the terminal commit `active_transition := None` (line 71) runs. -/
def pushLoop (w : Nat) (cancel : Option Nat) : Nat → List Int → StackState → StackState
  | _, [], st => { st with active_transition := none }
  | i, step :: rest, st =>
    if cancelObserved cancel i then st
    else pushLoop w cancel (i + 1) rest
      { st with x_position := min (w : Int) (st.x_position - step) }

/-- `Stack._push_transition` (stack.py lines 60-71): the loop only runs when
`self.width` is non-zero; the commit runs unconditionally otherwise. -/
def pushTransitionRun (w : Nat) (cancel : Option Nat) (steps : List Int)
    (st : StackState) : StackState :=
  if w ≠ 0 then pushLoop w cancel 0 steps st
  else { st with active_transition := none }

/-- The terminal commit of `Stack._pop_transition` (stack.py lines 88-93):
evict `elements` components from the top (logging each `remove_child`), then
set `active_transition := None` and `elements_to_pop := 0`. -/
def popCommit (elements : Nat) (st : StackState) : StackState :=
  let res := evictLoop elements (st.stack, st.torn_down)
  { st with stack := res.1, torn_down := res.2,
            active_transition := none, elements_to_pop := 0 }

/-- The loop of `Stack._pop_transition` (stack.py lines 76-86): cancellation
check, then `x_position := min(width * elements, x_position + step)`; on loop
exhaustion the terminal commit runs. -/
def popLoop (w elements : Nat) (cancel : Option Nat) :
    Nat → List Int → StackState → StackState
  | _, [], st => popCommit elements st
  | i, step :: rest, st =>
    if cancelObserved cancel i then st
    else popLoop w elements cancel (i + 1) rest
      { st with x_position := min ((w * elements : Nat) : Int) (st.x_position + step) }

/-- `Stack._pop_transition` (stack.py lines 73-93): the loop only runs when
`self.width` is non-zero; the commit runs unconditionally otherwise. -/
def popTransitionRun (w elements : Nat) (cancel : Option Nat) (steps : List Int)
    (st : StackState) : StackState :=
  if w ≠ 0 then popLoop w elements cancel 0 steps st
  else popCommit elements st

/-- A raster frame: a size plus a total pixel function (an opaque raster
surface in the sense of spec §6). -/
structure Image where
  width : Nat
  height : Nat
  pix : Int → Int → Nat

/-- PIL `Image.crop((l, t, r, b))`: a frame of size `(r - l, b - t)` whose
pixel `(x, y)` is the source pixel `(l + x, t + y)`. -/
def Image.crop (img : Image) (l t r b : Int) : Image :=
  { width := (r - l).toNat, height := (b - t).toNat,
    pix := fun x y => img.pix (l + x) (t + y) }

/-- PIL `Image.paste(src, (px, py))` (result of the in-place paste): pixels
inside the pasted rectangle come from `src`, the rest from `dst`. -/
def Image.paste (dst src : Image) (px py : Int) : Image :=
  { dst with pix := fun x y =>
      if px ≤ x ∧ x < px + (src.width : Int) ∧ py ≤ y ∧ y < py + (src.height : Int)
      then src.pix (x - px) (y - py)
      else dst.pix x y }

/-- `Stack.render` (stack.py lines 159-196).  `renderOf` gives each child
component its `render` function; `st.stack.reverse` head is `stack[-1]`, the
next element `stack[-2]`. -/
def Stack.render (renderOf : Nat → Image → Image) (st : StackState)
    (image : Image) : Image :=
  match st.stack.reverse with
  | [] => image
  | foreground_component :: rest =>
    let foreground_layer := renderOf foreground_component image
    if st.active_transition = none then foreground_layer
    else
      let right_bound : Int := (image.width : Int) - st.x_position
      let right_bound := if right_bound < 0 then 0 else right_bound
      let cropped := foreground_layer.crop 0 0 right_bound (image.height : Int)
      match rest with
      | [] => image.paste cropped ((image.width : Int) - (cropped.width : Int)) 0
      | background_component :: _ =>
        (renderOf background_component image).paste cropped
          ((image.width : Int) - (cropped.width : Int)) 0

/-- C6: pushing while a transition is active leaves the whole shared state
unchanged (stack contents and length, offset, elements_to_pop and
active_transition), spawns no driver, and — `Stack.push` being total — raises
no error to the caller. -/
theorem C6_push_busy_noop (w c : Nat) (animate : Bool) (st : StackState)
    (h : st.active_transition ≠ none) :
    Stack.push w c animate st = (st, false) := by
  unfold Stack.push
  simp [h]

theorem C6_push_busy_noop_witness :
    Stack.push 100 7 true ⟨42, [1, 2], some TransitionKind.PUSH, 0, []⟩ =
      (⟨42, [1, 2], some TransitionKind.PUSH, 0, []⟩, false) :=
  C6_push_busy_noop 100 7 true _ (by decide)

/-- C7: with no active transition, popping more elements than the stack holds,
or popping an empty stack, is a no-op: state unchanged, no driver spawned,
and — `Stack.pop` being total — no fault raised to the caller. -/
theorem C7_pop_out_of_range_noop (animate : Bool) (k : Nat) (st : StackState)
    (h : st.active_transition = none)
    (hk : st.stack.length < k ∨ st.stack.length = 0) :
    Stack.pop animate k st = (st, false) := by
  unfold Stack.pop
  by_cases h0 : st.stack.length = 0
  · simp [h, h0]
  · rcases hk with hk | hk
    · simp [h, h0, hk]
    · exact absurd hk h0

theorem C7_pop_out_of_range_noop_witness :
    Stack.pop true 3 ⟨0, [5, 6], none, 0, []⟩ = (⟨0, [5, 6], none, 0, []⟩, false) :=
  C7_pop_out_of_range_noop true 3 _ (by decide) (by left; decide)

/-- C5: `active_component` is the top of the stack when no pop transition is
active (`getLast?`, hence `none` on an empty stack); during a pop it is the
element `elements_to_pop` positions below the top; and whenever the index
computation goes out of bounds (`elements_to_pop ≥` depth, which covers the
empty stack) it is `none` rather than a raised fault. -/
theorem C5_active_component_derivation (st : StackState) :
    (st.active_transition ≠ some TransitionKind.POP →
        Stack.active_component st = st.stack.getLast?)
    ∧ (st.active_transition = some TransitionKind.POP →
        (st.elements_to_pop < st.stack.length →
            Stack.active_component st =
              st.stack[st.stack.length - 1 - st.elements_to_pop]?)
        ∧ (st.stack.length ≤ st.elements_to_pop →
            Stack.active_component st = none)) := by
  constructor
  · intro h
    simp only [Stack.active_component, if_neg h, pyGetNeg, Nat.sub_self]
    rw [← List.head?_eq_getElem?, List.head?_reverse]
  · intro h
    refine ⟨fun hk => ?_, fun hk => ?_⟩
    · simp only [Stack.active_component, if_pos h, pyGetNeg, Nat.add_sub_cancel_left]
      exact List.getElem?_reverse hk
    · simp only [Stack.active_component, if_pos h, pyGetNeg, Nat.add_sub_cancel_left]
      exact List.getElem?_eq_none (by simpa using hk)

theorem C5_active_component_derivation_witness :
    Stack.active_component ⟨0, [10, 20], some TransitionKind.POP, 1, []⟩ = some 10 := by
  have h :=
    ((C5_active_component_derivation ⟨0, [10, 20], some TransitionKind.POP, 1, []⟩).2
      rfl).1 (by decide)
  simpa using h

lemma evictLoop_eq : ∀ (k : Nat) (s torn : List Nat), k ≤ s.length →
    evictLoop k (s, torn) = (s.take (s.length - k), torn ++ s.reverse.take k)
  | 0, s, torn, _ => by simp [evictLoop]
  | k + 1, s, torn, hk => by
    rcases s.eq_nil_or_concat with rfl | ⟨l, x, hs⟩
    · simp at hk
    · simp only [List.concat_eq_append] at hs
      subst hs
      have hl : k ≤ l.length := by
        have := hk
        simp only [List.length_append, List.length_cons, List.length_nil] at this
        omega
      have hstep : evictLoop (k + 1) (l ++ [x], torn) = evictLoop k (l, torn ++ [x]) := by
        simp [evictLoop, List.getLast?_concat, List.dropLast_concat]
      rw [hstep, evictLoop_eq k l (torn ++ [x]) hl]
      have hlen : (l ++ [x]).length - (k + 1) = l.length - k := by simp
      have htake : (l ++ [x]).take (l.length - k) = l.take (l.length - k) :=
        List.take_append_of_le_length (by omega)
      have hrev : (l ++ [x]).reverse = x :: l.reverse := by simp
      rw [hlen, htake, hrev]
      simp [List.take_succ_cons]

lemma pushLoop_no_cancel (w : Nat) (cancel : Option Nat) (p : List Int) :
    ∀ (i : Nat) (st : StackState),
      (∀ m, m < i + p.length → i ≤ m → cancelObserved cancel m = false) →
      pushLoop w cancel i p st =
        { st with
            x_position := p.foldl (fun a s => min (w : Int) (a - s)) st.x_position,
            active_transition := none } := by
  induction p with
  | nil => intro i st _; simp [pushLoop]
  | cons step rest ih =>
    intro i st h
    have h0 : cancelObserved cancel i = false := h i (by simp) le_rfl
    simp only [pushLoop, h0, Bool.false_eq_true, if_false, List.foldl_cons]
    exact ih (i + 1) _ (fun m hm him => h m (by simp at hm ⊢; omega) (by omega))

lemma popLoop_no_cancel (w k : Nat) (cancel : Option Nat) (p : List Int) :
    ∀ (i : Nat) (st : StackState),
      (∀ m, m < i + p.length → i ≤ m → cancelObserved cancel m = false) →
      popLoop w k cancel i p st =
        popCommit k
          { st with
              x_position :=
                p.foldl (fun a s => min ((w * k : Nat) : Int) (a + s)) st.x_position } := by
  induction p with
  | nil => intro i st _; simp [popLoop]
  | cons step rest ih =>
    intro i st h
    have h0 : cancelObserved cancel i = false := h i (by simp) le_rfl
    simp only [popLoop, h0, Bool.false_eq_true, if_false, List.foldl_cons]
    exact ih (i + 1) _ (fun m hm him => h m (by simp at hm ⊢; omega) (by omega))

lemma pushLoop_cancelled (w j : Nat) (p : List Int) :
    ∀ (i : Nat) (st : StackState), i ≤ j → j < i + p.length →
      pushLoop w (some j) i p st =
        { st with
            x_position :=
              (p.take (j - i)).foldl (fun a s => min (w : Int) (a - s)) st.x_position } := by
  induction p with
  | nil => intro i st hij hj; simp at hj; omega
  | cons step rest ih =>
    intro i st hij hj
    by_cases hie : j ≤ i
    · have hji : i = j := le_antisymm hij hie
      subst hji
      simp [pushLoop, cancelObserved]
    · have h0 : cancelObserved (some j) i = false := by
        simp only [cancelObserved, decide_eq_false_iff_not]
        omega
      simp only [pushLoop, h0, Bool.false_eq_true, if_false]
      rw [ih (i + 1) _ (by omega) (by simp at hj ⊢; omega)]
      have hsub : j - i = (j - (i + 1)) + 1 := by omega
      rw [hsub]
      simp [List.take_succ_cons]

lemma popLoop_cancelled (w k j : Nat) (p : List Int) :
    ∀ (i : Nat) (st : StackState), i ≤ j → j < i + p.length →
      popLoop w k (some j) i p st =
        { st with
            x_position :=
              (p.take (j - i)).foldl
                (fun a s => min ((w * k : Nat) : Int) (a + s)) st.x_position } := by
  induction p with
  | nil => intro i st hij hj; simp at hj; omega
  | cons step rest ih =>
    intro i st hij hj
    by_cases hie : j ≤ i
    · have hji : i = j := le_antisymm hij hie
      subst hji
      simp [popLoop, cancelObserved]
    · have h0 : cancelObserved (some j) i = false := by
        simp only [cancelObserved, decide_eq_false_iff_not]
        omega
      simp only [popLoop, h0, Bool.false_eq_true, if_false]
      rw [ih (i + 1) _ (by omega) (by simp at hj ⊢; omega)]
      have hsub : j - i = (j - (i + 1)) + 1 := by omega
      rw [hsub]
      simp [List.take_succ_cons]

/-- C2: a driver run that observes no cancellation performs the terminal
commit: the push driver sets `active_transition` to `None`; the pop driver of
`k` elements evicts exactly the `k` topmost components — the teardown log
grows by exactly the top `k` components in top-to-bottom order — then sets
`active_transition := None` and `elements_to_pop := 0`, so a stack of length
`n ≥ k` ends with length `n - k`. -/
theorem C2_driver_completion (w k : Nat) (cancelP cancelQ : Option Nat)
    (stepsP stepsQ : List Int) (stP stQ : StackState)
    (hP : ∀ i, i < stepsP.length → cancelObserved cancelP i = false)
    (hQ : ∀ i, i < stepsQ.length → cancelObserved cancelQ i = false)
    (hk : k ≤ stQ.stack.length) :
    (pushTransitionRun w cancelP stepsP stP).active_transition = none
    ∧ (popTransitionRun w k cancelQ stepsQ stQ).stack
        = stQ.stack.take (stQ.stack.length - k)
    ∧ (popTransitionRun w k cancelQ stepsQ stQ).torn_down
        = stQ.torn_down ++ stQ.stack.reverse.take k
    ∧ (popTransitionRun w k cancelQ stepsQ stQ).active_transition = none
    ∧ (popTransitionRun w k cancelQ stepsQ stQ).elements_to_pop = 0
    ∧ (popTransitionRun w k cancelQ stepsQ stQ).stack.length
        = stQ.stack.length - k := by
  have hcommit : ∀ st' : StackState, st'.stack = stQ.stack →
      st'.torn_down = stQ.torn_down →
      (popCommit k st').stack = stQ.stack.take (stQ.stack.length - k)
      ∧ (popCommit k st').torn_down = stQ.torn_down ++ stQ.stack.reverse.take k
      ∧ (popCommit k st').active_transition = none
      ∧ (popCommit k st').elements_to_pop = 0 := by
    intro st' h1 h2
    simp [popCommit, h1, h2, evictLoop_eq k stQ.stack stQ.torn_down hk]
  have hpush : (pushTransitionRun w cancelP stepsP stP).active_transition = none := by
    unfold pushTransitionRun
    by_cases hw : w = 0
    · simp [hw]
    · simp only [ne_eq, hw, not_false_eq_true, if_true]
      rw [pushLoop_no_cancel w cancelP stepsP 0 stP
        (fun m hm _ => hP m (by simpa using hm))]
  have hpop : ∃ st' : StackState, st'.stack = stQ.stack ∧ st'.torn_down = stQ.torn_down
      ∧ popTransitionRun w k cancelQ stepsQ stQ = popCommit k st' := by
    unfold popTransitionRun
    by_cases hw : w = 0
    · exact ⟨stQ, rfl, rfl, by simp [hw]⟩
    · refine ⟨{ stQ with x_position := stepsQ.foldl (fun a s => min ((w * k : Nat) : Int) (a + s)) stQ.x_position }, rfl, rfl, ?_⟩
      simp only [ne_eq, hw, not_false_eq_true, if_true]
      exact popLoop_no_cancel w k cancelQ stepsQ 0 stQ
        (fun m hm _ => hQ m (by simpa using hm))
  obtain ⟨st', h1, h2, heq⟩ := hpop
  obtain ⟨hs, ht, ha, he⟩ := hcommit st' h1 h2
  refine ⟨hpush, ?_, ?_, ?_, ?_, ?_⟩ <;> rw [heq]
  · exact hs
  · exact ht
  · exact ha
  · exact he
  · rw [hs, List.length_take]; omega

theorem C2_driver_completion_witness :
    (pushTransitionRun 1 none [1] ⟨1, [4], some TransitionKind.PUSH, 0, []⟩).active_transition
        = none
    ∧ (popTransitionRun 1 1 none [1] ⟨0, [3, 5], some TransitionKind.POP, 1, []⟩).stack = [3]
    ∧ (popTransitionRun 1 1 none [1] ⟨0, [3, 5], some TransitionKind.POP, 1, []⟩).torn_down
        = [5]
    ∧ (popTransitionRun 1 1 none [1] ⟨0, [3, 5], some TransitionKind.POP, 1, []⟩).active_transition
        = none
    ∧ (popTransitionRun 1 1 none [1] ⟨0, [3, 5], some TransitionKind.POP, 1, []⟩).elements_to_pop
        = 0
    ∧ (popTransitionRun 1 1 none [1] ⟨0, [3, 5], some TransitionKind.POP, 1, []⟩).stack.length
        = 1 := by
  have h := C2_driver_completion 1 1 none none [1] [1]
    ⟨1, [4], some TransitionKind.PUSH, 0, []⟩ ⟨0, [3, 5], some TransitionKind.POP, 1, []⟩
    (fun i _ => rfl) (fun i _ => rfl) (by decide)
  simpa using h

/-- C3: a driver that observes the cancellation flag at check `j` terminates
without the terminal commit: the stack (hence its length), the teardown log,
`active_transition` and `elements_to_pop` are exactly as they were at the
moment of observation, and the offset holds the value reached after the `j`
increments applied before that check — for push and pop alike.  In
particular, `pop(animate=true, elements=1)` on a 2-element stack followed by
`cleanup()` observed before completion leaves the stack length at 2. -/
theorem C3_cancel_no_commit (w k j : Nat) (steps : List Int)
    (stP stQ st2 : StackState) (hw : w ≠ 0) (hj : j < steps.length)
    (h2len : st2.stack.length = 2) (h2act : st2.active_transition = none) :
    pushTransitionRun w (some j) steps stP
      = { stP with x_position :=
            (steps.take j).foldl (fun a s => min (w : Int) (a - s)) stP.x_position }
    ∧ popTransitionRun w k (some j) steps stQ
      = { stQ with x_position := (steps.take j).foldl (fun a s => min ((w * k : Nat) : Int) (a + s)) stQ.x_position }
    ∧ (popTransitionRun w 1 (some j) steps (Stack.pop true 1 st2).1).stack.length = 2 := by
  have hpush : pushTransitionRun w (some j) steps stP
      = { stP with x_position :=
            (steps.take j).foldl (fun a s => min (w : Int) (a - s)) stP.x_position } := by
    unfold pushTransitionRun
    simp only [ne_eq, hw, not_false_eq_true, if_true]
    simpa using pushLoop_cancelled w j steps 0 stP (Nat.zero_le j) (by simpa using hj)
  have hpop : ∀ stQ' : StackState, popTransitionRun w k (some j) steps stQ'
      = { stQ' with x_position := (steps.take j).foldl (fun a s => min ((w * k : Nat) : Int) (a + s)) stQ'.x_position } := by
    intro stQ'
    unfold popTransitionRun
    simp only [ne_eq, hw, not_false_eq_true, if_true]
    simpa using popLoop_cancelled w k j steps 0 stQ' (Nat.zero_le j) (by simpa using hj)
  have hpop1 : ∀ stQ' : StackState, popTransitionRun w 1 (some j) steps stQ'
      = { stQ' with x_position := (steps.take j).foldl (fun a s => min ((w * 1 : Nat) : Int) (a + s)) stQ'.x_position } := by
    intro stQ'
    unfold popTransitionRun
    simp only [ne_eq, hw, not_false_eq_true, if_true]
    simpa using popLoop_cancelled w 1 j steps 0 stQ' (Nat.zero_le j) (by simpa using hj)
  refine ⟨hpush, hpop stQ, ?_⟩
  have hpopcall : (Stack.pop true 1 st2).1
      = { st2 with active_transition := some TransitionKind.POP,
                   elements_to_pop := 1, x_position := 0 } := by
    unfold Stack.pop
    have h1 : ¬ st2.stack.length = 0 := by omega
    have h2 : ¬ st2.stack.length < 1 := by omega
    simp [h2act, h1, h2]
  rw [hpopcall, hpop1]
  simpa using h2len

theorem C3_cancel_no_commit_witness :
    pushTransitionRun 1 (some 0) [1] ⟨1, [4], some TransitionKind.PUSH, 0, []⟩
      = ⟨1, [4], some TransitionKind.PUSH, 0, []⟩
    ∧ popTransitionRun 1 1 (some 0) [1] ⟨0, [3, 5], some TransitionKind.POP, 1, []⟩
      = ⟨0, [3, 5], some TransitionKind.POP, 1, []⟩
    ∧ (popTransitionRun 1 1 (some 0) [1]
        (Stack.pop true 1 ⟨0, [7, 8], none, 0, []⟩).1).stack.length = 2 := by
  have h := C3_cancel_no_commit 1 1 0 [1]
    ⟨1, [4], some TransitionKind.PUSH, 0, []⟩ ⟨0, [3, 5], some TransitionKind.POP, 1, []⟩
    ⟨0, [7, 8], none, 0, []⟩ (by decide) (by decide) (by decide) rfl
  simpa using h

/-- C9: rendering an empty stack returns the input canvas itself (so in
particular pixel-identical), whatever `active_transition`, `x_position` and
`elements_to_pop` hold. -/
theorem C9_render_empty_stack (renderOf : Nat → Image → Image) (st : StackState)
    (image : Image) (h : st.stack = []) :
    Stack.render renderOf st image = image := by
  unfold Stack.render
  simp [h]

theorem C9_render_empty_stack_witness :
    Stack.render (fun c _ => ⟨1, 1, fun _ _ => c⟩)
        ⟨5, [], some TransitionKind.PUSH, 3, []⟩ ⟨4, 4, fun _ _ => 9⟩
      = ⟨4, 4, fun _ _ => 9⟩ :=
  C9_render_empty_stack _ _ _ rfl

lemma foldl_push_eq (w : Nat) : ∀ (p : List Int) (x : Int),
    (∀ s ∈ p, 0 ≤ s) → x ≤ (w : Int) →
    p.foldl (fun a s => min (w : Int) (a - s)) x = x - p.sum
  | [], x, _, _ => by simp
  | s :: rest, x, hpos, hx => by
    have hs : 0 ≤ s := hpos s (by simp)
    have h1 : min (w : Int) (x - s) = x - s := min_eq_right (by omega)
    simp only [List.foldl_cons, h1]
    rw [foldl_push_eq w rest (x - s) (fun u hu => hpos u (by simp [hu])) (by omega)]
    simp only [List.sum_cons]
    ring

lemma foldl_pop_eq (t : Int) : ∀ (p : List Int) (x : Int),
    (∀ s ∈ p, 0 ≤ s) → x + p.sum ≤ t →
    p.foldl (fun a s => min t (a + s)) x = x + p.sum
  | [], x, _, _ => by simp
  | s :: rest, x, hpos, hx => by
    have hs : 0 ≤ s := hpos s (by simp)
    have hrest : 0 ≤ rest.sum := List.sum_nonneg (fun u hu => hpos u (by simp [hu]))
    have hsum : x + (s :: rest).sum = x + s + rest.sum := by
      simp only [List.sum_cons]; ring
    have h1 : min t (x + s) = x + s := min_eq_right (by omega)
    simp only [List.foldl_cons, h1]
    rw [foldl_pop_eq t rest (x + s) (fun u hu => hpos u (by simp [hu])) (by omega)]
    simp only [List.sum_cons]
    ring

/-- C4: throughout a transition the offset stays within its bound — after any
initial segment of the driver loop it lies in `[0, width]` for a push and in
`[0, width * elementsToPop]` for a pop — and each increment the driver applies
advances the offset by `min(remaining, step)` toward its target, monotonically
and without overshooting, for every step list the step sequencer can
produce. -/
theorem C4_offset_bounds (w k : Nat) (sp pp tp sq pq tq : List Int)
    (stP stQ : StackState) (x y : Int)
    (hP : StepSeq w sp) (hppre : pp ++ tp = sp)
    (hQ : StepSeq (w * k) sq) (hqpre : pq ++ tq = sq)
    (hx : x = (pushLoop w none 0 pp { stP with x_position := (w : Int) }).x_position)
    (hy : y = (popLoop w k none 0 pq { stQ with x_position := 0 }).x_position) :
    (0 ≤ x ∧ x ≤ (w : Int))
    ∧ (∀ s rest, tp = s :: rest →
        (pushLoop w none 0 (pp ++ [s]) { stP with x_position := (w : Int) }).x_position = x - min x s
        ∧ x - min x s ≤ x)
    ∧ (0 ≤ y ∧ y ≤ ((w * k : Nat) : Int))
    ∧ (∀ s rest, tq = s :: rest →
        (popLoop w k none 0 (pq ++ [s]) { stQ with x_position := 0 }).x_position = y + min (((w * k : Nat) : Int) - y) s
        ∧ y ≤ y + min (((w * k : Nat) : Int) - y) s) := by
  obtain ⟨hPpos, hPsum⟩ := hP
  obtain ⟨hQpos, hQsum⟩ := hQ
  have nocancel : ∀ (p : List Int) (i : Nat), ∀ m, m < i + p.length → i ≤ m →
      cancelObserved (none : Option Nat) m = false := fun _ _ _ _ _ => rfl
  have hppos : ∀ s ∈ pp, 0 ≤ s := fun s hs =>
    le_of_lt (hPpos s (hppre ▸ List.mem_append_left tp hs))
  have hqpos : ∀ s ∈ pq, 0 ≤ s := fun s hs =>
    le_of_lt (hQpos s (hqpre ▸ List.mem_append_left tq hs))
  have hppsum : 0 ≤ pp.sum := List.sum_nonneg hppos
  have hqqsum : 0 ≤ pq.sum := List.sum_nonneg hqpos
  have htpsum : 0 ≤ tp.sum := List.sum_nonneg (fun s hs =>
    le_of_lt (hPpos s (hppre ▸ List.mem_append_right pp hs)))
  have htqsum : 0 ≤ tq.sum := List.sum_nonneg (fun s hs =>
    le_of_lt (hQpos s (hqpre ▸ List.mem_append_right pq hs)))
  have hsp_split : pp.sum + tp.sum = (w : Int) := by
    rw [← hPsum, ← hppre, List.sum_append]
  have hsq_split : pq.sum + tq.sum = ((w * k : Nat) : Int) := by
    rw [← hQsum, ← hqpre, List.sum_append]
  have hxval : x = (w : Int) - pp.sum := by
    rw [hx, pushLoop_no_cancel w none pp 0 _ (nocancel pp 0)]
    exact foldl_push_eq w pp (w : Int) hppos le_rfl
  have hyval : y = pq.sum := by
    rw [hy, popLoop_no_cancel w k none pq 0 _ (nocancel pq 0)]
    simp only [popCommit]
    rw [foldl_pop_eq ((w * k : Nat) : Int) pq 0 hqpos (by omega)]
    ring
  refine ⟨⟨by omega, by omega⟩, ?_, ⟨by omega, by omega⟩, ?_⟩
  · intro s rest htp
    have hs_mem : (0 : Int) < s := hPpos s (by rw [← hppre, htp]; simp)
    have hrest : 0 ≤ rest.sum := List.sum_nonneg (fun u hu =>
      le_of_lt (hPpos u (by rw [← hppre, htp]; simp [hu])))
    have htp_sum : tp.sum = s + rest.sum := by rw [htp]; simp
    have hs_le : s ≤ x := by omega
    have hfold : (pushLoop w none 0 (pp ++ [s]) { stP with x_position := (w : Int) }).x_position
        = (pp ++ [s]).foldl (fun a u => min (w : Int) (a - u)) (w : Int) := by
      rw [pushLoop_no_cancel w none (pp ++ [s]) 0 _ (nocancel (pp ++ [s]) 0)]
    have happ : (pp ++ [s]).foldl (fun a u => min (w : Int) (a - u)) (w : Int)
        = min (w : Int) (x - s) := by
      rw [List.foldl_append]
      rw [foldl_push_eq w pp (w : Int) hppos le_rfl]
      simp [hxval]
    have hmin1 : min x s = s := min_eq_right hs_le
    have hmin2 : min (w : Int) (x - s) = x - s := min_eq_right (by omega)
    constructor
    · rw [hfold, happ, hmin1, hmin2]
    · omega
  · intro s rest htq
    have hs_mem : (0 : Int) < s := hQpos s (by rw [← hqpre, htq]; simp)
    have hrest : 0 ≤ rest.sum := List.sum_nonneg (fun u hu =>
      le_of_lt (hQpos u (by rw [← hqpre, htq]; simp [hu])))
    have htq_sum : tq.sum = s + rest.sum := by rw [htq]; simp
    have hfold : (popLoop w k none 0 (pq ++ [s]) { stQ with x_position := 0 }).x_position
        = (pq ++ [s]).foldl (fun a u => min ((w * k : Nat) : Int) (a + u)) 0 := by
      rw [popLoop_no_cancel w k none (pq ++ [s]) 0 _ (nocancel (pq ++ [s]) 0)]
      simp [popCommit]
    have happ : (pq ++ [s]).foldl (fun a u => min ((w * k : Nat) : Int) (a + u)) 0
        = min ((w * k : Nat) : Int) (y + s) := by
      rw [List.foldl_append]
      rw [foldl_pop_eq ((w * k : Nat) : Int) pq 0 hqpos (by omega)]
      simp [hyval]
    have hmin : min ((w * k : Nat) : Int) (y + s) = y + min (((w * k : Nat) : Int) - y) s := by
      omega
    constructor
    · rw [hfold, happ, hmin]
    · have : 0 ≤ min (((w * k : Nat) : Int) - y) s := by omega
      omega

theorem C4_offset_bounds_witness :
    ((0 : Int) ≤ 1 ∧ (1 : Int) ≤ 2)
    ∧ ((pushLoop 2 none 0 ([1] ++ [1]) ⟨2, [], some TransitionKind.PUSH, 0, []⟩).x_position = 1 - min 1 1
        ∧ (1 : Int) - min 1 1 ≤ 1)
    ∧ ((0 : Int) ≤ 0 ∧ (0 : Int) ≤ 2)
    ∧ ((popLoop 2 1 none 0 ([] ++ [2]) ⟨0, [], some TransitionKind.POP, 1, []⟩).x_position = 0 + min (2 - 0) 2
        ∧ (0 : Int) ≤ 0 + min (2 - 0) 2) := by
  have h := C4_offset_bounds 2 1 [1, 1] [1] [1] [2] [] [2]
    ⟨9, [], some TransitionKind.PUSH, 0, []⟩ ⟨9, [], some TransitionKind.POP, 1, []⟩ 1 0
    ⟨by decide, by decide⟩ rfl ⟨by decide, by decide⟩ rfl (by decide) (by decide)
  exact ⟨h.1, h.2.1 1 [] rfl, h.2.2.1, h.2.2.2 2 [] rfl⟩

/-- C10: popping exactly the whole stack passes validation — on a stack of
length `n ≥ 1` with no active transition, `pop(animate=true, elements=n)`
spawns the driver and starts a pop transition (`active_transition = POP`,
`elements_to_pop = n`, `x_position = 0`, stack untouched) — and at every
moment of that transition (the state observed after any number `j` of applied
increments, before the commit) both `active_component` and `active_index` are
`none`. -/
theorem C10_pop_whole_stack (w n : Nat) (st : StackState)
    (hact : st.active_transition = none) (hlen : st.stack.length = n)
    (hn : 1 ≤ n) (hw : w ≠ 0) :
    (Stack.pop true n st).2 = true
    ∧ (Stack.pop true n st).1.active_transition = some TransitionKind.POP
    ∧ (Stack.pop true n st).1.elements_to_pop = n
    ∧ (Stack.pop true n st).1.x_position = 0
    ∧ (Stack.pop true n st).1.stack = st.stack
    ∧ ∀ (steps : List Int) (j : Nat), j < steps.length →
        Stack.active_component
            (popTransitionRun w n (some j) steps (Stack.pop true n st).1) = none
        ∧ Stack.active_index
            (popTransitionRun w n (some j) steps (Stack.pop true n st).1) = none := by
  have h1 : ¬ st.stack.length = 0 := by omega
  have h2 : ¬ st.stack.length < n := by omega
  have hpopcall : Stack.pop true n st
      = ({ st with active_transition := some TransitionKind.POP,
                   elements_to_pop := n, x_position := 0 }, true) := by
    unfold Stack.pop
    simp [hact, h1, h2]
  refine ⟨by rw [hpopcall], by rw [hpopcall], by rw [hpopcall], by rw [hpopcall],
    by rw [hpopcall], ?_⟩
  intro steps j hj
  have hmid : popTransitionRun w n (some j) steps (Stack.pop true n st).1
      = { (Stack.pop true n st).1 with x_position := (steps.take j).foldl (fun a s => min ((w * n : Nat) : Int) (a + s)) (Stack.pop true n st).1.x_position } := by
    unfold popTransitionRun
    simp only [ne_eq, hw, not_false_eq_true, if_true]
    simpa using popLoop_cancelled w n j steps 0 _ (Nat.zero_le j) (by simpa using hj)
  have hcomp : Stack.active_component
      (popTransitionRun w n (some j) steps (Stack.pop true n st).1) = none := by
    rw [hmid, hpopcall]
    simp only [Stack.active_component, pyGetNeg, Nat.add_sub_cancel_left, if_pos rfl]
    exact List.getElem?_eq_none (by simpa using le_of_eq hlen)
  refine ⟨hcomp, ?_⟩
  unfold Stack.active_index
  rw [hcomp]

theorem C10_pop_whole_stack_witness :
    (Stack.pop true 2 ⟨0, [4, 6], none, 0, []⟩).2 = true
    ∧ (Stack.pop true 2 ⟨0, [4, 6], none, 0, []⟩).1.active_transition
        = some TransitionKind.POP
    ∧ (Stack.pop true 2 ⟨0, [4, 6], none, 0, []⟩).1.elements_to_pop = 2
    ∧ (Stack.pop true 2 ⟨0, [4, 6], none, 0, []⟩).1.x_position = 0
    ∧ (Stack.pop true 2 ⟨0, [4, 6], none, 0, []⟩).1.stack = [4, 6]
    ∧ (Stack.active_component
          (popTransitionRun 5 2 (some 1) [3, 3, 3, 1]
            (Stack.pop true 2 ⟨0, [4, 6], none, 0, []⟩).1) = none
        ∧ Stack.active_index
            (popTransitionRun 5 2 (some 1) [3, 3, 3, 1]
              (Stack.pop true 2 ⟨0, [4, 6], none, 0, []⟩).1) = none) := by
  have h := C10_pop_whole_stack 5 2 ⟨0, [4, 6], none, 0, []⟩ rfl rfl
    (by decide) (by decide)
  exact ⟨h.1, h.2.1, h.2.2.1, h.2.2.2.1, h.2.2.2.2.1,
    h.2.2.2.2.2 [3, 3, 3, 1] 1 (by decide)⟩

/-- C1: with a transition active and a non-empty stack, `render` crops the top
screen's rendered frame to the rectangle `(0, 0, max 0 (w - offset), h)` and
pastes it right-aligned — the paste position plus the cropped width equals the
canvas width, so its right edge is flush with the canvas's right edge — onto
the input canvas (which is returned) when the stack has exactly one element,
and onto the frame rendered by the screen directly below the top (which is
returned) when it has two or more. -/
theorem C1_render_transition (renderOf : Nat → Image → Image) (st : StackState)
    (image : Image) (top : Nat) (rest : List Nat) (cropped : Image) (pos : Int)
    (hact : st.active_transition ≠ none) (hrev : st.stack.reverse = top :: rest)
    (hcrop : cropped = (renderOf top image).crop 0 0 (max 0 ((image.width : Int) - st.x_position)) (image.height : Int))
    (hpos : pos = (image.width : Int) - (cropped.width : Int)) :
    pos + (cropped.width : Int) = (image.width : Int)
    ∧ (rest = [] →
        Stack.render renderOf st image = image.paste cropped pos 0)
    ∧ (∀ below more, rest = below :: more →
        Stack.render renderOf st image = (renderOf below image).paste cropped pos 0) := by
  have hmax : ((if (image.width : Int) < st.x_position then 0
      else (image.width : Int) - st.x_position))
      = max 0 ((image.width : Int) - st.x_position) := by
    split
    · exact (max_eq_left (by omega)).symm
    · exact (max_eq_right (by omega)).symm
  refine ⟨by omega, ?_, ?_⟩
  · intro hnil
    subst hnil
    subst hcrop
    subst hpos
    unfold Stack.render
    generalize hg : st.stack.reverse = r
    obtain rfl : r = [top] := hg.symm.trans hrev
    simp [hact, hmax]
  · intro below more hcons
    subst hcons
    subst hcrop
    subst hpos
    unfold Stack.render
    generalize hg : st.stack.reverse = r
    obtain rfl : r = top :: below :: more := hg.symm.trans hrev
    simp [hact, hmax]

theorem C1_render_transition_witness :
    ((3 : Int) + (((Image.mk 8 8 fun _ _ => (2 : Nat)).crop 0 0 (max 0 ((8 : Int) - 3)) 8).width : Int) = 8)
    ∧ Stack.render (fun c img => Image.mk img.width img.height fun _ _ => c)
        ⟨3, [1, 2], some TransitionKind.POP, 1, []⟩ (Image.mk 8 8 fun _ _ => 0)
      = (Image.mk 8 8 fun _ _ => (1 : Nat)).paste
          ((Image.mk 8 8 fun _ _ => (2 : Nat)).crop 0 0 (max 0 ((8 : Int) - 3)) 8) 3 0 := by
  have h := C1_render_transition (fun c img => Image.mk img.width img.height fun _ _ => c)
    ⟨3, [1, 2], some TransitionKind.POP, 1, []⟩ (Image.mk 8 8 fun _ _ => 0) 2 [1]
    ((Image.mk 8 8 fun _ _ => (2 : Nat)).crop 0 0 (max 0 ((8 : Int) - 3)) 8) 3
    (by decide) rfl rfl (by decide)
  exact ⟨h.1, h.2.2 1 [] rfl⟩

/-- A heap of Python list objects: the cell index is the object's identity,
the cell content the list's elements. -/
structure Heap where
  cells : List (List Nat)
  deriving DecidableEq, Repr

/-- Allocating a new list object: fresh identity, given contents. -/
def Heap.alloc (h : Heap) (v : List Nat) : Nat × Heap :=
  (h.cells.length, ⟨h.cells ++ [v]⟩)

/-- Reading a list object's contents. -/
def Heap.read (h : Heap) (i : Nat) : List Nat :=
  (h.cells[i]?).getD []

/-- Python evaluates a parameter's default expression once, when the `def`
statement executes: loading the module allocates the single empty list that
`initial_stack=[]` (stack.py line 23) binds on every defaulted call. -/
def moduleLoad (h : Heap) : Nat × Heap :=
  h.alloc []

/-- The observable identities of one `Stack.__init__` call: the instance's
own stack list and the list object the `initial_stack` parameter was bound
to. -/
structure StackInit where
  stackCell : Nat
  boundArg : Nat
  deriving DecidableEq, Repr

/-- `Stack.__init__` (stack.py lines 23-31): `initial_stack` binds the
caller's list if one is passed, else the default cell; the instance's stack
is a fresh list built by the comprehension
`[self.create_child(Component) for Component in initial_stack]`, which only
reads `initial_stack` and never mutates it.  `createChild` maps each element
of `initial_stack` to the child constructed from it. -/
def Stack.init (createChild : Nat → Nat) (defaultCell : Nat) (arg : Option Nat)
    (h : Heap) : StackInit × Heap :=
  let initial_stack := arg.getD defaultCell
  let res := h.alloc ((h.read initial_stack).map createChild)
  (⟨res.1, initial_stack⟩, res.2)

/-- The property C8 asserts: every defaulted construction binds
`initial_stack` to a container freshly allocated by that very call, i.e. one
that did not exist in the heap before the call. -/
def freshDefaultPerCall : Prop :=
  ∀ (createChild : Nat → Nat) (h : Heap) (d : Nat),
    d < h.cells.length →
    h.cells.length ≤ (Stack.init createChild d none h).1.boundArg

/-- C8 counterexample: the default is evaluated once at module load, so in the
heap `⟨[[]]⟩` produced by `moduleLoad ⟨[]⟩` (default cell 0), a defaulted
construction binds cell 0 — a pre-existing, shared object, not one freshly
allocated by the call. -/
theorem C8_counterexample : ¬ freshDefaultPerCall := by
  intro hfresh
  have h := hfresh id ⟨[[]]⟩ 0 (by decide)
  simp [Stack.init] at h

/-- C8 (amended): the initial-screens parameter defaults to a single empty
list allocated once at module load and shared by every defaulted call (both
constructions bind the same cell `d`); but the constructor only reads it —
its contents remain empty — and allocates each instance's stack freshly, so
the two instances' stack cells are distinct from each other and from the
default, and no stack state leaks between them. -/
theorem C8_shared_default_no_leak (createChild : Nat → Nat) (h0 : Heap)
    (d : Nat) (h1 : Heap) (i1 : StackInit) (h2 : Heap) (i2 : StackInit) (h3 : Heap)
    (hload : moduleLoad h0 = (d, h1))
    (hc1 : Stack.init createChild d none h1 = (i1, h2))
    (hc2 : Stack.init createChild d none h2 = (i2, h3)) :
    i1.boundArg = d ∧ i2.boundArg = d
    ∧ h3.read d = []
    ∧ i1.stackCell ≠ i2.stackCell
    ∧ i1.stackCell ≠ d ∧ i2.stackCell ≠ d := by
  simp only [moduleLoad, Heap.alloc, Prod.mk.injEq] at hload
  obtain ⟨hd, hh1⟩ := hload
  subst hd
  subst hh1
  simp only [Stack.init, Heap.alloc, Prod.mk.injEq, Option.getD_none] at hc1 hc2
  obtain ⟨hi1, hh2⟩ := hc1
  subst hh2
  obtain ⟨hi2, hh3⟩ := hc2
  subst hh3
  subst hi1
  subst hi2
  refine ⟨rfl, rfl, ?_, by simp, by simp, by simp⟩
  simp [Heap.read, List.getElem?_append_right (le_refl h0.cells.length)]

theorem C8_shared_default_no_leak_witness :
    (StackInit.mk 1 0).boundArg = 0 ∧ (StackInit.mk 2 0).boundArg = 0
    ∧ (Heap.mk [[], [], []]).read 0 = []
    ∧ (StackInit.mk 1 0).stackCell ≠ (StackInit.mk 2 0).stackCell
    ∧ (StackInit.mk 1 0).stackCell ≠ 0 ∧ (StackInit.mk 2 0).stackCell ≠ 0 :=
  C8_shared_default_no_leak id ⟨[]⟩ 0 ⟨[[]]⟩ ⟨1, 0⟩ ⟨[[], []]⟩ ⟨2, 0⟩ ⟨[[], [], []]⟩
    rfl rfl rfl
